import Mathlib

/-!
DyVProMo: the element set manager of the BPMN viewer.

A shallow embedding of `src/viewer/BpmnViewer.js` and `src/viewer/BpmnViewer.es.js`:
the functions that hide and show diagram elements together with their connections,
the two type-based selections, and the overlay labelling.

The rendering engine (the canvas, the element registry, the overlay service, the
`is` type test) is a library the viewer calls. It is represented here by the
state it keeps: the element registry is the list of diagram nodes currently attached
to the canvas, in insertion order, looked up by identifier.
-/

set_option autoImplicit false

namespace BpmnViewer

/-! ## Data model -/

/-- The semantic object behind a diagram node; `type` is its `$type`. -/
structure BusinessObject where
  type : String
deriving DecidableEq, Repr

/-- A connection: an edge of the diagram. `source` and `target` are the identifiers of
the nodes it joins (the engine keeps object references there). -/
structure Connection where
  id : String
  type : String
  source : String
  target : String
  businessObject : BusinessObject := { type := type }
deriving DecidableEq, Repr

/-- An element as handed to `removeElements` / `addElements`: a shape with the
connections that arrive at it and leave it. -/
structure Element where
  id : String
  type : String
  incoming : List Connection
  outgoing : List Connection
  businessObject : BusinessObject := { type := type }
deriving DecidableEq, Repr

/-- Anything the registry can hold. -/
inductive Node where
  | element (e : Element)
  | connection (c : Connection)
deriving DecidableEq, Repr

/-- The `id` property of a node. -/
def Node.id : Node → String
  | .element e => e.id
  | .connection c => c.id

/-- The `type` property of a node. -/
def Node.type : Node → String
  | .element e => e.type
  | .connection c => c.type

/-- The `businessObject` property of a node. -/
def Node.businessObject : Node → BusinessObject
  | .element e => e.businessObject
  | .connection c => c.businessObject

/-- The element registry: the nodes currently attached to the canvas (the Visible Set),
in insertion order. -/
abbrev Registry := List Node

/-- `elementRegistry.get(id)`: the attached node with that identifier, if any. -/
def ElementRegistry.get (r : Registry) (id : String) : Option Node :=
  r.find? (fun n => n.id == id)

/-- The connections of the registry. -/
def connections (r : Registry) : List Connection :=
  r.filterMap (fun n => match n with
    | .connection c => some c
    | .element _ => none)

/-- The identifiers of the (non-connection) elements of the registry. -/
def elementIds (r : Registry) : List String :=
  r.filterMap (fun n => match n with
    | .element e => some e.id
    | .connection _ => none)

/-- A node with this identifier is attached to the canvas. -/
def visible (r : Registry) (id : String) : Prop :=
  (ElementRegistry.get r id).isSome = true

instance (r : Registry) (id : String) : Decidable (visible r id) := by
  unfold visible; exact inferInstance

/-- The Visible Set invariant: for every attached connection, the element at its source
and the element at its target are attached (elements that are not connections
themselves). -/
def VisibleSetInvariant (r : Registry) : Prop :=
  ∀ c ∈ connections r, c.source ∈ elementIds r ∧ c.target ∈ elementIds r

instance (r : Registry) : Decidable (VisibleSetInvariant r) := by
  unfold VisibleSetInvariant; exact inferInstance

/-! ## The canvas

The four canvas calls belong to the rendering engine. They change the registry and draw
or erase graphics; only the registry is kept here. Adding registers the node under its
identifier, whether it is drawn as a shape or as a connection. The engine raises when the
identifier is already registered; in the viewer every add sits behind a lookup of that
identifier, and identifiers are unique in a diagram, so that case is not part of the
model: adding appends. Removing erases the registry entry of the given identifier and is
silent when there is none; it leaves the incoming and outgoing lists of the removed
node as they are. -/

/-- `canvas.addShape(shape)`. -/
def Canvas.addShape (r : Registry) (shape : Node) : Registry :=
  r ++ [shape]

/-- `canvas.addConnection(con)`. -/
def Canvas.addConnection (r : Registry) (con : Connection) : Registry :=
  r ++ [Node.connection con]

/-- `addConnectionArray`: each connection not yet registered is added, as a shape
when its type is `"label"` and as a connection otherwise. -/
def addConnectionArray (r : Registry) (connectionArray : List Connection) : Registry :=
  connectionArray.foldl (fun r con =>
    if (ElementRegistry.get r con.id).isNone then
      if con.type = "label" then
        Canvas.addShape r (Node.connection con)
      else
        Canvas.addConnection r con
    else r) r

/-- `addConnections`: the incoming connections, then the outgoing ones. -/
def addConnections (r : Registry) (element : Element) : Registry :=
  let incomingCons := element.incoming
  let outgoingCons := element.outgoing
  addConnectionArray (addConnectionArray r incomingCons) outgoingCons

/-- `addElements`: each element not yet registered gets its connections added and then
its own shape. -/
def addElements (r : Registry) (elements : List Element) : Registry :=
  elements.foldl (fun r elem =>
    if (ElementRegistry.get r elem.id).isNone then
      Canvas.addShape (addConnections r elem) (Node.element elem)
    else r) r

/-! ## Selecting elements (`BpmnViewer.js` 131–165) -/

/-- JavaScript `s.startsWith(p)`. -/
def startsWith (s p : String) : Bool :=
  p.toList.isPrefixOf s.toList

/-- `is(element, type)` from the engine's `ModelUtil`: the business object of the element
is an instance of `type`, that is `type` is its own type or one of the types it inherits
from in the meta-model. `superTypes` is the meta-model: the ancestors of each type. -/
def ModelUtil.is (superTypes : String → List String) (element : Node) (type : String) : Bool :=
  element.businessObject.type == type || (superTypes element.businessObject.type).contains type

/-- `selectElements`: `elementRegistry.filter(element => is(element, "bpmn:" + name))`. -/
def selectElements (superTypes : String → List String) (registry : Registry)
    (bpmnElementName : String) : List Node :=
  registry.filter (fun element => ModelUtil.is superTypes element ("bpmn:" ++ bpmnElementName))

/-- `selectAllFirstElems` of `BpmnViewer.js`: a `filter` on the `bpmn:` prefix followed
by a `reduce` that skips the collaboration and every type already collected. -/
def selectAllFirstElems (registry : Registry) : List Node :=
  (registry.filter (fun element => startsWith element.type "bpmn:")).foldl
    (fun res elem =>
      if elem.type = "bpmn:Collaboration" then res
      else if res.any (fun e => e.type == elem.type) then res
      else res ++ [elem]) []

/-! ## Overlays (`BpmnViewer.js` 167–201, `BpmnViewer.es.js` 161–195) -/

/-- JavaScript `s.split(sep)` for a one-character separator. -/
def split (s : String) (sep : Char) : List String :=
  (s.toList.splitOn sep).map String.mk

/-- JavaScript string conversion of a value that is a string or `undefined`. -/
def jsString : Option String → String
  | some s => s
  | none => "undefined"

/-- An overlay kept by the overlay service. -/
structure Overlay (Pos : Type) where
  element : Node
  position : Pos
  html : String

/-- `overlays.add(element, { position, html })`: the service raises for the elements it
`refuses`; otherwise it keeps the overlay and returns its handle. -/
def Overlays.add {Pos : Type} (refuses : Node → Bool) (overlays : List (Overlay Pos))
    (element : Node) (position : Pos) (html : String) :
    Except String (Nat × List (Overlay Pos)) :=
  if refuses element then
    Except.error "invalid element specified"
  else
    Except.ok (overlays.length, overlays ++ [{ element := element, position := position, html := html }])

/-- `addOverlay`: asks the position resolver `BdvUtil.getPosition` (a parameter: it may
raise), wraps the content and registers the overlay. -/
def addOverlay {Pos : Type} (getPosition : Node → Option String → Except String Pos)
    (refuses : Node → Bool) (overlays : List (Overlay Pos)) (element : Node)
    (content : Option String) : Except String (Nat × List (Overlay Pos)) :=
  match getPosition element content with
  | Except.error err => Except.error err
  | Except.ok position =>
    let html := "<div class=\"diagram-note p-1\">" ++ jsString content ++ "<div/>"
    Overlays.add refuses overlays element position html

/-- The label `addOverlays` computes for an element: the second piece of its type, with
`Participant` shown as `Pool`. -/
def overlayContent (elem : Node) : Option String :=
  if (split elem.type ':')[1]? = some "Participant" then some "Pool"
  else (split elem.type ':')[1]?

/-- `addOverlays`: `elements.forEach(elem => addOverlay(elem, content))`. An exception
raised inside the callback leaves the loop; the result is the overlay store reached and
the exception, if one was raised. -/
def addOverlays {Pos : Type} (getPosition : Node → Option String → Except String Pos)
    (refuses : Node → Bool) (overlays : List (Overlay Pos)) :
    List Node → List (Overlay Pos) × Option String
  | [] => (overlays, none)
  | elem :: rest =>
    match addOverlay getPosition refuses overlays elem (overlayContent elem) with
    | Except.error err => (overlays, some err)
    | Except.ok (_, overlays') => addOverlays getPosition refuses overlays' rest

end BpmnViewer

namespace BpmnViewerEs

open BpmnViewer

/-- `selectAllFirstElems` of `BpmnViewer.es.js` (142–159): two nested `forEach` loops
with an `alreadyAdded` flag. -/
def selectAllFirstElems (registry : Registry) : List Node :=
  let a := registry.filter (fun element => startsWith element.type "bpmn:")
  a.foldl (fun b element =>
    let alreadyAdded := b.foldl (fun alreadyAdded elem =>
      if elem.type = element.type then true else alreadyAdded) false
    if !alreadyAdded && element.type != "bpmn:Collaboration" then b ++ [element] else b) []

end BpmnViewerEs

namespace BpmnViewer

/-! ## Scenario data -/

/-- The part of the BPMN 2.0 meta-model around tasks: what each type inherits from. -/
def taskSuperTypes : String → List String
  | "bpmn:UserTask" =>
    ["bpmn:Task", "bpmn:Activity", "bpmn:InteractionNode", "bpmn:FlowNode", "bpmn:FlowElement",
     "bpmn:BaseElement"]
  | "bpmn:Task" =>
    ["bpmn:Activity", "bpmn:InteractionNode", "bpmn:FlowNode", "bpmn:FlowElement", "bpmn:BaseElement"]
  | _ => []

/-- Sequence flow from `S` into `T1`. -/
def flowIn : Connection :=
  { id := "f1", type := "bpmn:SequenceFlow", source := "S", target := "T1" }

/-- Sequence flow from `T1` to `T2`. -/
def flowOut : Connection :=
  { id := "f2", type := "bpmn:SequenceFlow", source := "T1", target := "T2" }

/-- Message flow from `T1` to a task of another pool. -/
def M1 : Connection :=
  { id := "M1", type := "bpmn:MessageFlow", source := "T1", target := "X1" }

/-- Pool. -/
def P1 : Element := { id := "P1", type := "bpmn:Participant", incoming := [], outgoing := [] }

/-- Lane of `P1`. -/
def L1 : Element := { id := "L1", type := "bpmn:Lane", incoming := [], outgoing := [] }

/-- Start event. -/
def S : Element := { id := "S", type := "bpmn:StartEvent", incoming := [], outgoing := [flowIn] }

/-- Task with one incoming and one outgoing sequence flow. -/
def T1 : Element := { id := "T1", type := "bpmn:Task", incoming := [flowIn], outgoing := [flowOut] }

/-- Second task. -/
def T2 : Element := { id := "T2", type := "bpmn:Task", incoming := [flowOut], outgoing := [] }

/-- Text annotation. -/
def A1 : Element := { id := "A1", type := "bpmn:TextAnnotation", incoming := [], outgoing := [] }

/-- A user task. -/
def U1 : Element := { id := "U1", type := "bpmn:UserTask", incoming := [], outgoing := [] }

/-- A position resolver that raises for `T1` and anchors every other element at the
origin. -/
def resolverWithoutT1 : Node → Option String → Except String (Int × Int) :=
  fun element _ => if element.id = "T1" then Except.error "no position" else Except.ok (0, 0)

/-- The registry of the classification scenario, in its native order. -/
def scenarioRegistry : Registry :=
  [Node.element P1, Node.element L1, Node.element T1, Node.element T2, Node.element A1,
   Node.connection M1]

end BpmnViewer

namespace BpmnViewer

/-! ## Registry lemmas -/

theorem visible_iff (r : Registry) (id : String) : visible r id ↔ ∃ n ∈ r, n.id = id := by
  simp [visible, ElementRegistry.get, List.find?_isSome]

theorem get_isNone_iff (r : Registry) (id : String) :
    (ElementRegistry.get r id).isNone = true ↔ ∀ n ∈ r, n.id ≠ id := by
  simp [ElementRegistry.get]

theorem mem_connections (r : Registry) (c : Connection) :
    c ∈ connections r ↔ Node.connection c ∈ r := by
  simp only [connections, List.mem_filterMap]
  constructor
  · rintro ⟨n, hn, h⟩
    cases n with
    | element e => simp at h
    | connection d => simp at h; subst h; exact hn
  · intro h
    exact ⟨_, h, rfl⟩

theorem mem_elementIds (r : Registry) (id : String) :
    id ∈ elementIds r ↔ ∃ e, Node.element e ∈ r ∧ e.id = id := by
  simp only [elementIds, List.mem_filterMap]
  constructor
  · rintro ⟨n, hn, h⟩
    cases n with
    | element e => simp at h; exact ⟨e, hn, h⟩
    | connection d => simp at h
  · rintro ⟨e, he, h⟩
    exact ⟨_, he, by simp [h]⟩

/-! ## Removal -/

theorem addConnectionArray_cons (r : Registry) (c : Connection) (cs : List Connection) :
    addConnectionArray r (c :: cs) =
      addConnectionArray
        (if (ElementRegistry.get r c.id).isNone then r ++ [Node.connection c] else r) cs := by
  simp only [addConnectionArray, List.foldl_cons, Canvas.addShape, Canvas.addConnection, ite_self]

theorem addElements_cons (r : Registry) (e : Element) (xs : List Element) :
    addElements r (e :: xs) =
      addElements
        (if (ElementRegistry.get r e.id).isNone then addConnections r e ++ [Node.element e]
         else r) xs := by
  simp only [addElements, List.foldl_cons, Canvas.addShape]

theorem addConnections_eq (r : Registry) (e : Element) :
    addConnections r e = addConnectionArray r (e.incoming ++ e.outgoing) := by
  simp [addConnections, addConnectionArray, List.foldl_append]

theorem subset_addConnectionArray (cs : List Connection) (r : Registry) (n : Node)
    (h : n ∈ r) : n ∈ addConnectionArray r cs := by
  induction cs generalizing r with
  | nil => simpa [addConnectionArray] using h
  | cons c cs ih =>
    rw [addConnectionArray_cons]
    apply ih
    split
    · exact List.mem_append_left _ h
    · exact h

theorem mem_addConnectionArray (cs : List Connection) (r : Registry) (n : Node)
    (h : n ∈ addConnectionArray r cs) :
    n ∈ r ∨ ∃ c ∈ cs, ¬ visible r c.id ∧ n = Node.connection c := by
  induction cs generalizing r with
  | nil => exact Or.inl (by simpa [addConnectionArray] using h)
  | cons c cs ih =>
    rw [addConnectionArray_cons] at h
    rcases ih _ h with h1 | ⟨d, hd, hv, rfl⟩
    · split at h1
      · next hnone =>
        rcases List.mem_append.1 h1 with h2 | h2
        · exact Or.inl h2
        · refine Or.inr ⟨c, List.mem_cons_self _ _, ?_, by simpa using h2⟩
          rw [visible_iff]
          rintro ⟨m, hm, hid⟩
          exact (get_isNone_iff r c.id).1 hnone m hm hid
      · exact Or.inl h1
    · refine Or.inr ⟨d, List.mem_cons_of_mem _ hd, ?_, rfl⟩
      intro hv'
      apply hv
      rw [visible_iff] at hv' ⊢
      obtain ⟨m, hm, hid⟩ := hv'
      refine ⟨m, ?_, hid⟩
      split
      · exact List.mem_append_left _ hm
      · exact hm

theorem subset_addElements (xs : List Element) (r : Registry) (n : Node) (h : n ∈ r) :
    n ∈ addElements r xs := by
  induction xs generalizing r with
  | nil => simpa [addElements] using h
  | cons e xs ih =>
    rw [addElements_cons]
    apply ih
    split
    · exact List.mem_append_left _ (by rw [addConnections_eq]; exact subset_addConnectionArray _ _ _ h)
    · exact h

theorem visible_mono_step (r : Registry) (e : Element) (id : String) (h : visible r id) :
    visible (if (ElementRegistry.get r e.id).isNone then addConnections r e ++ [Node.element e]
      else r) id := by
  rw [visible_iff] at h ⊢
  obtain ⟨m, hm, hid⟩ := h
  refine ⟨m, ?_, hid⟩
  split
  · exact List.mem_append_left _ (by rw [addConnections_eq]; exact subset_addConnectionArray _ _ _ hm)
  · exact hm

theorem mem_addElements (xs : List Element) (r : Registry) (n : Node)
    (h : n ∈ addElements r xs) :
    n ∈ r ∨ (∃ e ∈ xs, ¬ visible r e.id ∧ n = Node.element e) ∨
      ∃ e ∈ xs, ¬ visible r e.id ∧
        ∃ c ∈ e.incoming ++ e.outgoing, ¬ visible r c.id ∧ n = Node.connection c := by
  induction xs generalizing r with
  | nil => exact Or.inl (by simpa [addElements] using h)
  | cons x xs ih =>
    rw [addElements_cons] at h
    have mono := visible_mono_step r x
    rcases ih _ h with h1 | ⟨e, he, hv, rfl⟩ | ⟨e, he, hv, c, hc, hvc, rfl⟩
    · split at h1
      · next hnone =>
        have hx : ¬ visible r x.id := by
          rw [visible_iff]
          rintro ⟨m, hm, hid⟩
          exact (get_isNone_iff r x.id).1 hnone m hm hid
        rcases List.mem_append.1 h1 with h2 | h2
        · rw [addConnections_eq] at h2
          rcases mem_addConnectionArray _ _ _ h2 with h3 | ⟨c, hc, hvc, rfl⟩
          · exact Or.inl h3
          · exact Or.inr (Or.inr ⟨x, List.mem_cons_self _ _, hx, c, hc, hvc, rfl⟩)
        · exact Or.inr (Or.inl ⟨x, List.mem_cons_self _ _, hx, by simpa using h2⟩)
      · exact Or.inl h1
    · exact Or.inr (Or.inl ⟨e, List.mem_cons_of_mem _ he, fun hv' => hv (mono _ hv'), rfl⟩)
    · exact Or.inr (Or.inr ⟨e, List.mem_cons_of_mem _ he, fun hv' => hv (mono _ hv'), c, hc,
        fun hv' => hvc (mono _ hv'), rfl⟩)

theorem elementIds_addElements (xs : List Element) (r : Registry)
    (hIdsR : ∀ e ∈ xs, ∀ c ∈ connections r, c.id ≠ e.id)
    (hIdsL : ∀ e ∈ xs, ∀ e' ∈ xs, ∀ c ∈ e.incoming ++ e.outgoing, c.id ≠ e'.id) :
    ∀ e ∈ xs, e.id ∈ elementIds (addElements r xs) := by
  induction xs generalizing r with
  | nil => simp
  | cons x xs ih =>
    intro e he
    rw [addElements_cons]
    have hx : x.id ∈ elementIds
        (if (ElementRegistry.get r x.id).isNone then addConnections r x ++ [Node.element x]
         else r) := by
      split
      · exact (mem_elementIds _ _).2 ⟨x, by simp, rfl⟩
      · next hsome =>
        have hv : visible r x.id := by
          simpa [visible, Option.isNone_iff_eq_none, Option.isSome_iff_ne_none] using hsome
        obtain ⟨m, hm, hid⟩ := (visible_iff _ _).1 hv
        cases m with
        | element s => exact (mem_elementIds _ _).2 ⟨s, hm, hid⟩
        | connection c =>
          exact absurd hid (hIdsR x (List.mem_cons_self _ _) c ((mem_connections _ _).2 hm))
    have hstep : ∀ e ∈ xs, ∀ c ∈ connections
        (if (ElementRegistry.get r x.id).isNone then addConnections r x ++ [Node.element x]
         else r), c.id ≠ e.id := by
      intro e he c hc
      rw [mem_connections] at hc
      split at hc
      · rcases List.mem_append.1 hc with h2 | h2
        · rw [addConnections_eq] at h2
          rcases mem_addConnectionArray _ _ _ h2 with h3 | ⟨d, hd, _, hdc⟩
          · exact hIdsR e (List.mem_cons_of_mem _ he) c ((mem_connections _ _).2 h3)
          · cases hdc
            exact hIdsL x (List.mem_cons_self _ _) e (List.mem_cons_of_mem _ he) c hd
        · simp at h2
      · exact hIdsR e (List.mem_cons_of_mem _ he) c ((mem_connections _ _).2 hc)
    rcases List.mem_cons.1 he with rfl | he
    · obtain ⟨s, hs, hid⟩ := (mem_elementIds _ _).1 hx
      exact (mem_elementIds _ _).2 ⟨s, subset_addElements _ _ _ hs, hid⟩
    · exact ih _ hstep
        (fun a ha b hb => hIdsL a (List.mem_cons_of_mem _ ha) b (List.mem_cons_of_mem _ hb)) e he

/-- C1, refuted as stated. With only the start event `S` visible, `addElements([T1])`
adds the two sequence flows listed by `T1` and then `T1`; the flow from `T1` to `T2` is
then visible while its target `T2` is not. The invariant held before, and the lists of
`T1` are exactly the flows that end or start at `T1`. -/
theorem addElements_breaks_invariant :
    VisibleSetInvariant [Node.element S] ∧
    (∀ c ∈ [flowIn, flowOut],
      (c ∈ T1.incoming ↔ c.target = T1.id) ∧ (c ∈ T1.outgoing ↔ c.source = T1.id)) ∧
    addElements [Node.element S] [T1] =
      [Node.element S, Node.connection flowIn, Node.connection flowOut, Node.element T1] ∧
    ¬ VisibleSetInvariant (addElements [Node.element S] [T1]) := by
  decide

/-- C1, amended. `addElements` keeps the Visible Set invariant provided that every
connection it has to add (one listed by a batch element that is not yet visible, the
connection itself not yet visible) has both endpoints among the elements visible before
the call or in the batch, and no connection, visible or listed, carries the identifier
of a batch element. -/
theorem addElements_preserves_invariant (r : Registry) (xs : List Element)
    (hInv : VisibleSetInvariant r)
    (hEnds : ∀ e ∈ xs, ¬ visible r e.id → ∀ c ∈ e.incoming ++ e.outgoing, ¬ visible r c.id →
      (c.source ∈ elementIds r ∨ c.source ∈ xs.map Element.id) ∧
      (c.target ∈ elementIds r ∨ c.target ∈ xs.map Element.id))
    (hIdsR : ∀ e ∈ xs, ∀ c ∈ connections r, c.id ≠ e.id)
    (hIdsL : ∀ e ∈ xs, ∀ e' ∈ xs, ∀ c ∈ e.incoming ++ e.outgoing, c.id ≠ e'.id) :
    VisibleSetInvariant (addElements r xs) := by
  have hold : ∀ id, id ∈ elementIds r → id ∈ elementIds (addElements r xs) := by
    intro id hid
    obtain ⟨s, hs, h⟩ := (mem_elementIds _ _).1 hid
    exact (mem_elementIds _ _).2 ⟨s, subset_addElements _ _ _ hs, h⟩
  have hnew : ∀ id, id ∈ xs.map Element.id → id ∈ elementIds (addElements r xs) := by
    intro id hid
    obtain ⟨e, he, rfl⟩ := List.mem_map.1 hid
    exact elementIds_addElements xs r hIdsR hIdsL e he
  intro c hc
  rw [mem_connections] at hc
  rcases mem_addElements _ _ _ hc with h | ⟨e, _, _, h⟩ | ⟨e, he, hv, d, hd, hvd, h⟩
  · obtain ⟨h1, h2⟩ := hInv c ((mem_connections _ _).2 h)
    exact ⟨hold _ h1, hold _ h2⟩
  · cases h
  · cases h
    obtain ⟨h1, h2⟩ := hEnds e he hv c hd hvd
    exact ⟨h1.elim (hold _) (hnew _), h2.elim (hold _) (hnew _)⟩

/-- C1 amended, at the scenario: with only `S` visible, adding `T1` and `T2` together. -/
theorem addElements_preserves_invariant_witness :
    VisibleSetInvariant [Node.element S] ∧
    VisibleSetInvariant (addElements [Node.element S] [T1, T2]) :=
  ⟨by decide, addElements_preserves_invariant [Node.element S] [T1, T2] (by decide) (by decide)
    (by decide) (by decide)⟩

/-! ## Round trip -/

theorem foldl_firsts (l : List Node) (acc : List Node) :
    ∃ s, l.foldl (fun res elem =>
        if elem.type = "bpmn:Collaboration" then res
        else if res.any (fun e => e.type == elem.type) then res
        else res ++ [elem]) acc = acc ++ s ∧
      s.Sublist l ∧
      s.Pairwise (fun a b => a.type ≠ b.type) ∧
      (∀ e ∈ s, e.type ≠ "bpmn:Collaboration" ∧ e.type ∉ acc.map Node.type ∧
        l.find? (fun n => n.type == e.type) = some e) ∧
      (∀ n ∈ l, n.type ≠ "bpmn:Collaboration" → n.type ∈ (acc ++ s).map Node.type) := by
  induction l generalizing acc with
  | nil => exact ⟨[], by simp⟩
  | cons x l ih =>
    simp only [List.foldl_cons]
    by_cases hc : x.type = "bpmn:Collaboration"
    · rw [if_pos hc]
      obtain ⟨s, hs, hsub, hpw, hel, hcov⟩ := ih acc
      refine ⟨s, hs, hsub.cons _, hpw, ?_, ?_⟩
      · intro e he
        obtain ⟨h1, h2, h3⟩ := hel e he
        refine ⟨h1, h2, ?_⟩
        have hx : (x.type == e.type) = false := by
          rw [beq_eq_false_iff_ne]
          intro h
          exact h1 (h ▸ hc)
        rw [List.find?_cons, hx]
        exact h3
      · intro n hn hne
        rcases List.mem_cons.1 hn with rfl | hn
        · exact absurd hc hne
        · exact hcov n hn hne
    · rw [if_neg hc]
      by_cases ha : acc.any (fun e => e.type == x.type) = true
      · rw [if_pos ha]
        have hxacc : x.type ∈ acc.map Node.type := by
          obtain ⟨a, haa, hat⟩ := List.any_eq_true.1 ha
          exact List.mem_map.2 ⟨a, haa, by simpa using hat⟩
        obtain ⟨s, hs, hsub, hpw, hel, hcov⟩ := ih acc
        refine ⟨s, hs, hsub.cons _, hpw, ?_, ?_⟩
        · intro e he
          obtain ⟨h1, h2, h3⟩ := hel e he
          refine ⟨h1, h2, ?_⟩
          have hx : (x.type == e.type) = false := by
            rw [beq_eq_false_iff_ne]
            intro h
            exact h2 (h ▸ hxacc)
          rw [List.find?_cons, hx]
          exact h3
        · intro n hn hne
          rcases List.mem_cons.1 hn with rfl | hn
          · exact List.mem_map.2 (by
              obtain ⟨a, haa, hat⟩ := List.mem_map.1 hxacc
              exact ⟨a, List.mem_append_left _ haa, hat⟩)
          · exact hcov n hn hne
      · rw [if_neg ha]
        obtain ⟨s, hs, hsub, hpw, hel, hcov⟩ := ih (acc ++ [x])
        refine ⟨x :: s, by simpa using hs, hsub.cons₂ _, ?_, ?_, ?_⟩
        · refine List.Pairwise.cons ?_ hpw
          intro e he h
          exact (hel e he).2.1 (by simp [h])
        · intro e he
          rcases List.mem_cons.1 he with rfl | he
          · refine ⟨hc, ?_, by simp⟩
            intro hmem
            apply ha
            obtain ⟨a, haa, hat⟩ := List.mem_map.1 hmem
            exact List.any_eq_true.2 ⟨a, haa, by simpa using hat⟩
          · obtain ⟨h1, h2, h3⟩ := hel e he
            have hne : x.type ≠ e.type := fun h => h2 (by simp [h])
            refine ⟨h1, fun hmem => h2 (by simp at hmem ⊢; exact Or.inl hmem), ?_⟩
            rw [List.find?_cons, beq_eq_false_iff_ne.2 hne]
            exact h3
        · intro n hn hne
          rcases List.mem_cons.1 hn with rfl | hn
          · simp
          · simpa using hcov n hn hne

theorem flag_eq_any (b : List Node) (t : String) (init : Bool) :
    b.foldl (fun alreadyAdded elem => if elem.type = t then true else alreadyAdded) init =
      (init || b.any (fun e => e.type == t)) := by
  induction b generalizing init with
  | nil => simp
  | cons x b ih =>
    simp only [List.foldl_cons, List.any_cons]
    rw [ih]
    by_cases h : x.type = t
    · simp [h]
    · simp [h, beq_eq_false_iff_ne.2 h]

theorem es_eq_js (registry : Registry) :
    BpmnViewerEs.selectAllFirstElems registry = selectAllFirstElems registry := by
  unfold BpmnViewerEs.selectAllFirstElems selectAllFirstElems
  simp only []
  congr 1
  funext b element
  rw [flag_eq_any]
  by_cases hc : element.type = "bpmn:Collaboration"
  · simp [hc]
  · by_cases ha : b.any (fun e => e.type == element.type) = true
    · rw [if_neg hc, if_pos ha]
      simp [ha]
    · rw [if_neg hc, if_neg ha]
      simp [hc]
      simp at ha
      simpa using ha

theorem selectAllFirstElems_spec (registry : Registry) :
    (selectAllFirstElems registry).Sublist registry ∧
    (selectAllFirstElems registry).Pairwise (fun a b => a.type ≠ b.type) ∧
    (∀ e ∈ selectAllFirstElems registry,
      registry.find? (fun n => n.type == e.type) = some e) ∧
    (∀ t, t ∈ (selectAllFirstElems registry).map Node.type ↔
      t ∈ registry.map Node.type ∧ startsWith t "bpmn:" = true ∧ t ≠ "bpmn:Collaboration") := by
  obtain ⟨s, hs, hsub, hpw, hel, hcov⟩ :=
    foldl_firsts (registry.filter (fun element => startsWith element.type "bpmn:")) []
  have heq : selectAllFirstElems registry = s := by
    simpa [selectAllFirstElems] using hs
  rw [heq]
  have hmemf : ∀ e ∈ s, e ∈ registry ∧ startsWith e.type "bpmn:" = true := by
    intro e he
    simpa using List.mem_filter.1 (hsub.subset he)
  refine ⟨hsub.trans (List.filter_sublist _), hpw, ?_, ?_⟩
  · intro e he
    have h3 := (hel e he).2.2
    rw [List.find?_filter] at h3
    rw [← h3]
    congr 1
    funext a
    by_cases h : a.type = e.type
    · simp [h, (hmemf e he).2]
    · simp [h]
  · intro t
    constructor
    · intro ht
      obtain ⟨e, he, rfl⟩ := List.mem_map.1 ht
      exact ⟨List.mem_map.2 ⟨e, (hmemf e he).1, rfl⟩, (hmemf e he).2, (hel e he).1⟩
    · rintro ⟨ht, hp, hne⟩
      obtain ⟨n, hn, rfl⟩ := List.mem_map.1 ht
      simpa using hcov n (List.mem_filter.2 ⟨hn, by simpa using hp⟩) hne

/-- C5. The result of `selectAllFirstElems` (either variant) is made of registry
elements and holds exactly one element of each type that occurs in the registry, starts with `bpmn:` and is not
`bpmn:Collaboration`, holds no element of any other type, and the type at a position
differs from the type at every earlier position. -/
theorem selectAllFirstElems_one_per_type (registry : Registry) (res : List Node)
    (hres : res = selectAllFirstElems registry ∨
      res = BpmnViewerEs.selectAllFirstElems registry) :
    (∀ e ∈ res, e ∈ registry) ∧
    (∀ t, (res.map Node.type).count t =
      if t ∈ registry.map Node.type ∧ startsWith t "bpmn:" = true ∧ t ≠ "bpmn:Collaboration"
      then 1 else 0) ∧
    (∀ (i j : Nat) (a b : Node), j < i → res[i]? = some a → res[j]? = some b → b.type ≠ a.type) := by
  have hres' : res = selectAllFirstElems registry := by
    rcases hres with h | h
    · exact h
    · rw [h, es_eq_js]
  subst hres'
  obtain ⟨hsub, hpw, _, hmem⟩ := selectAllFirstElems_spec registry
  refine ⟨fun e he => hsub.subset he, ?_, ?_⟩
  · intro t
    have hnd : ((selectAllFirstElems registry).map Node.type).Nodup := by
      rw [List.Nodup, List.pairwise_map]
      exact hpw
    split
    · next h => exact List.count_eq_one_of_mem hnd ((hmem t).2 h)
    · next h => exact List.count_eq_zero_of_not_mem (fun hm => h ((hmem t).1 hm))
  · intro i j a b hji ha hb
    obtain ⟨hi, rfl⟩ := List.getElem?_eq_some.1 ha
    obtain ⟨hj, rfl⟩ := List.getElem?_eq_some.1 hb
    exact List.pairwise_iff_getElem.1 hpw j i hj hi hji

/-- C5 at the scenario registry. -/
theorem selectAllFirstElems_one_per_type_witness :
    (∀ e ∈ selectAllFirstElems scenarioRegistry, e ∈ scenarioRegistry) ∧
    (∀ t, ((selectAllFirstElems scenarioRegistry).map Node.type).count t =
      if t ∈ scenarioRegistry.map Node.type ∧ startsWith t "bpmn:" = true ∧
        t ≠ "bpmn:Collaboration"
      then 1 else 0) ∧
    (∀ (i j : Nat) (a b : Node), j < i → (selectAllFirstElems scenarioRegistry)[i]? = some a →
      (selectAllFirstElems scenarioRegistry)[j]? = some b → b.type ≠ a.type) :=
  selectAllFirstElems_one_per_type scenarioRegistry (selectAllFirstElems scenarioRegistry)
    (Or.inl rfl)

/-- C6. First seen wins: the result of `selectAllFirstElems` (either variant) is a
subsequence of the registry, and each of its elements is the first element of the
registry with its type: it splits the registry into a part before it that holds no
element of that type, itself, and the rest. On the scenario registry
`P1, L1, T1, T2, A1, M1` both variants return `P1, L1, T1, A1, M1`. -/
theorem selectAllFirstElems_first_seen (registry : Registry) (res : List Node)
    (hres : res = selectAllFirstElems registry ∨
      res = BpmnViewerEs.selectAllFirstElems registry) :
    res.Sublist registry ∧
    (∀ e ∈ res, ∃ pre post, registry = pre ++ e :: post ∧ ∀ n ∈ pre, n.type ≠ e.type) ∧
    selectAllFirstElems scenarioRegistry =
      [Node.element P1, Node.element L1, Node.element T1, Node.element A1, Node.connection M1] ∧
    BpmnViewerEs.selectAllFirstElems scenarioRegistry =
      [Node.element P1, Node.element L1, Node.element T1, Node.element A1, Node.connection M1] := by
  have hres' : res = selectAllFirstElems registry := by
    rcases hres with h | h
    · exact h
    · rw [h, es_eq_js]
  subst hres'
  obtain ⟨hsub, _, hfind, _⟩ := selectAllFirstElems_spec registry
  refine ⟨hsub, ?_, by decide, by decide⟩
  intro e he
  obtain ⟨_, pre, post, hsplit, hpre⟩ := List.find?_eq_some.1 (hfind e he)
  refine ⟨pre, post, hsplit, fun n hn h => ?_⟩
  have := hpre n hn
  simp [h] at this

/-- C6 at the scenario registry. -/
theorem selectAllFirstElems_first_seen_witness :
    (selectAllFirstElems scenarioRegistry).Sublist scenarioRegistry ∧
    (∀ e ∈ selectAllFirstElems scenarioRegistry, ∃ pre post,
      scenarioRegistry = pre ++ e :: post ∧ ∀ n ∈ pre, n.type ≠ e.type) :=
  ⟨(selectAllFirstElems_first_seen scenarioRegistry (selectAllFirstElems scenarioRegistry)
      (Or.inl rfl)).1,
   (selectAllFirstElems_first_seen scenarioRegistry (selectAllFirstElems scenarioRegistry)
      (Or.inl rfl)).2.1⟩

/-- C10. The two variants of `selectAllFirstElems` return the same sequence on every
registry. -/
theorem selectAllFirstElems_variants_agree (registry : Registry) :
    BpmnViewerEs.selectAllFirstElems registry = selectAllFirstElems registry :=
  es_eq_js registry

/-! ## Selection by kind -/

/-- C7, refuted as stated. With a task `T1` and a user task `U1` registered,
`selectElements("Task")` returns both: the user task is an instance of `bpmn:Task` in
the meta-model although its own type is `bpmn:UserTask`. -/
theorem selectElements_returns_specialised_kind :
    selectElements taskSuperTypes [Node.element T1, Node.element U1] "Task" =
      [Node.element T1, Node.element U1] ∧
    (Node.element U1).type = "bpmn:UserTask" ∧
    (Node.element U1).type ≠ "bpmn:" ++ "Task" := by
  decide

/-- C7, amended. `selectElements(k)` returns, in registry order, exactly the elements of
the registry that are instances of `"bpmn:" + k`: those whose business object has that
type or a type that inherits from it. It returns every element whose business object has
exactly that type, and the empty sequence exactly when no element of the registry is
such an instance. -/
theorem selectElements_instances (superTypes : String → List String) (registry : Registry)
    (k : String) :
    (selectElements superTypes registry k).Sublist registry ∧
    (∀ n, n ∈ selectElements superTypes registry k ↔
      n ∈ registry ∧ (n.businessObject.type = "bpmn:" ++ k ∨
        "bpmn:" ++ k ∈ superTypes n.businessObject.type)) ∧
    (∀ n ∈ registry, n.businessObject.type = "bpmn:" ++ k →
      n ∈ selectElements superTypes registry k) ∧
    (selectElements superTypes registry k = [] ↔
      ∀ n ∈ registry, ¬ (n.businessObject.type = "bpmn:" ++ k ∨
        "bpmn:" ++ k ∈ superTypes n.businessObject.type)) := by
  have hmem : ∀ n, n ∈ selectElements superTypes registry k ↔
      n ∈ registry ∧ (n.businessObject.type = "bpmn:" ++ k ∨
        "bpmn:" ++ k ∈ superTypes n.businessObject.type) := by
    intro n
    simp [selectElements, ModelUtil.is, List.mem_filter]
  refine ⟨List.filter_sublist _, hmem, fun n hn h => (hmem n).2 ⟨hn, Or.inl h⟩, ?_⟩
  rw [List.eq_nil_iff_forall_not_mem]
  constructor
  · intro h n hn hq
    exact h n ((hmem n).2 ⟨hn, hq⟩)
  · intro h n hn
    exact h n ((hmem n).1 hn).1 ((hmem n).1 hn).2

/-! ## Overlays -/

theorem addOverlay_ok {Pos : Type} (getPosition : Node → Option String → Except String Pos)
    (refuses : Node → Bool) (overlays : List (Overlay Pos)) (element : Node)
    (content : Option String) (p : Pos) (hr : refuses element = false)
    (hp : getPosition element content = Except.ok p) :
    addOverlay getPosition refuses overlays element content =
      Except.ok (overlays.length, overlays ++
        [⟨element, p, "<div class=\"diagram-note p-1\">" ++ jsString content ++ "<div/>"⟩]) := by
  simp [addOverlay, hp, Overlays.add, hr]

theorem addOverlay_fails {Pos : Type} (getPosition : Node → Option String → Except String Pos)
    (refuses : Node → Bool) (overlays : List (Overlay Pos)) (element : Node)
    (content : Option String)
    (h : refuses element = true ∨ ∃ err, getPosition element content = Except.error err) :
    ∃ err, addOverlay getPosition refuses overlays element content = Except.error err := by
  rcases h with h | ⟨err, h⟩
  · cases hp : getPosition element content with
    | error err => exact ⟨err, by simp [addOverlay, hp]⟩
    | ok p => exact ⟨_, by simp [addOverlay, hp, Overlays.add, h]; rfl⟩
  · exact ⟨err, by simp [addOverlay, h]⟩

theorem addOverlays_append {Pos : Type} (getPosition : Node → Option String → Except String Pos)
    (refuses : Node → Bool) (pos : Node → Pos) (pre : List Node) (rest : List Node)
    (overlays : List (Overlay Pos))
    (hpre : ∀ e ∈ pre, refuses e = false ∧
      getPosition e (overlayContent e) = Except.ok (pos e)) :
    addOverlays getPosition refuses overlays (pre ++ rest) =
      addOverlays getPosition refuses
        (overlays ++ pre.map (fun e => ⟨e, pos e,
          "<div class=\"diagram-note p-1\">" ++ jsString (overlayContent e) ++ "<div/>"⟩))
        rest := by
  induction pre generalizing overlays with
  | nil => simp
  | cons x pre ih =>
    obtain ⟨hr, hp⟩ := hpre x (List.mem_cons_self _ _)
    simp only [List.cons_append, addOverlays]
    rw [addOverlay_ok getPosition refuses overlays x _ (pos x) hr hp]
    simp only [List.append_eq]
    rw [ih _ (fun e he => hpre e (List.mem_cons_of_mem _ he))]
    simp

/-- C8, refuted as stated. With a position resolver that raises for `T1`, the annotation
`A1` gets its overlay when it is handed over alone, but `addOverlays([P1, T1, A1])`
attaches the overlay of `P1` only and ends with the exception raised for `T1`: `A1`,
which comes after the failing element, gets no overlay. -/
theorem addOverlays_stops_at_failure :
    ((addOverlays resolverWithoutT1 (fun _ => false) [] [Node.element A1]).1.map
      (fun o => o.element.id) = ["A1"]) ∧
    (addOverlays resolverWithoutT1 (fun _ => false) [] [Node.element A1]).2 = none ∧
    ((addOverlays resolverWithoutT1 (fun _ => false) []
      [Node.element P1, Node.element T1, Node.element A1]).1.map
      (fun o => o.element.id) = ["P1"]) ∧
    (addOverlays resolverWithoutT1 (fun _ => false) []
      [Node.element P1, Node.element T1, Node.element A1]).2 = some "no position" := by
  decide

/-- C8, amended. `addOverlays` attaches overlays in sequence order up to the first
element for which the position resolver or the overlay service raises: the elements
before it get their overlays, the exception ends the call, and no element after it is
processed, so the overlay store is the initial one followed by the overlays of the
elements before the failing one. -/
theorem addOverlays_until_first_failure {Pos : Type}
    (getPosition : Node → Option String → Except String Pos) (refuses : Node → Bool)
    (pos : Node → Pos) (overlays : List (Overlay Pos)) (pre : List Node) (x : Node)
    (post : List Node)
    (hpre : ∀ e ∈ pre, refuses e = false ∧
      getPosition e (overlayContent e) = Except.ok (pos e))
    (hx : refuses x = true ∨ ∃ err, getPosition x (overlayContent x) = Except.error err) :
    ∃ err, addOverlays getPosition refuses overlays (pre ++ x :: post) =
      (overlays ++ pre.map (fun e => ⟨e, pos e,
        "<div class=\"diagram-note p-1\">" ++ jsString (overlayContent e) ++ "<div/>"⟩),
       some err) := by
  rw [addOverlays_append getPosition refuses pos pre (x :: post) overlays hpre]
  obtain ⟨err, herr⟩ := addOverlay_fails getPosition refuses
    (overlays ++ pre.map (fun e => ⟨e, pos e,
      "<div class=\"diagram-note p-1\">" ++ jsString (overlayContent e) ++ "<div/>"⟩))
    x (overlayContent x) hx
  exact ⟨err, by simp [addOverlays, herr]⟩

/-- C8 amended, at the scenario: `P1` before the failing `T1`, `A1` after it. -/
theorem addOverlays_until_first_failure_witness :
    ∃ err, addOverlays resolverWithoutT1 (fun _ => false) []
        ([Node.element P1] ++ Node.element T1 :: [Node.element A1]) =
      ([] ++ [Node.element P1].map (fun e => ⟨e, (0, 0),
        "<div class=\"diagram-note p-1\">" ++ jsString (overlayContent e) ++ "<div/>"⟩),
       some err) :=
  addOverlays_until_first_failure resolverWithoutT1 (fun _ => false) (fun _ => (0, 0)) []
    [Node.element P1] (Node.element T1) [Node.element A1]
    (by
      intro e he
      rw [List.mem_singleton] at he
      subst he
      exact ⟨rfl, rfl⟩)
    (Or.inr ⟨"no position", rfl⟩)

end BpmnViewer
